import Mathlib

/-!
Verification of the bounded producer/consumer queue of the
Embedded-System-Guide corpus.

The queue recurs twice in the source with different synchronization
primitives:

* `concepts/03_condition_variables/03_producer_consumer.c` — a mutex plus
  two condition variables (`not_full`, `not_empty`) guarding the shared
  globals `buffer[BUFFER_SIZE]`, `count`, `in`, `out`;
* `concepts/04_semaphores/03_producer_consumer.c` — three counting
  semaphores (`empty`, `full`, `mutex`) guarding `buffer`, `in`, `out`.

We embed the state mutated inside each critical section as a Lean
structure, model a completed `put`/`take` as the atomic state transition
performed while the lock (or the `mutex` semaphore) is held, and reason
about every interleaving of completed operations through an inductive
trace relation whose guards are exactly the wait conditions of the C code
(`count == BUFFER_SIZE` for the producer, `count == 0` for the consumer).

C field names: `in` is a Lean keyword, so the write cursor `in` is called
`writeIndex` and the read cursor `out` is called `readIndex`, the names
the specification uses for the same fields.

The file is laid out as definitions first, then the theorems about them.
-/

/-! ## Definitions -/

/-- State of the bounded queue: the fields mutated inside the critical
section of `03_producer_consumer.c` (`buffer`, `count`, `in` = `writeIndex`,
`out` = `readIndex`), plus the fixed `capacity` (`BUFFER_SIZE`) and the
`closed` flag of the shutdown protocol. The condition-variable source has
no `closed` flag; `put`/`take` steps of the code never touch it. -/
structure Queue where
  capacity : Nat
  buffer : List Int
  count : Nat
  writeIndex : Nat
  readIndex : Nat
  closed : Bool
deriving DecidableEq

/-- The critical section of `producer` in
`03_condition_variables/03_producer_consumer.c`, lines 43-45:
`buffer[in] = item; in = (in + 1) % BUFFER_SIZE; count++;`. -/
def putStep (q : Queue) (item : Int) : Queue :=
  { q with
    buffer := q.buffer.set q.writeIndex item
    writeIndex := (q.writeIndex + 1) % q.capacity
    count := q.count + 1 }

/-- The critical section of `consumer` in
`03_condition_variables/03_producer_consumer.c`, lines 69-71:
`item = buffer[out]; out = (out + 1) % BUFFER_SIZE; count--;`.
The state part of the transition; `takenItem` below is the value read. -/
def takeStep (q : Queue) : Queue :=
  { q with
    readIndex := (q.readIndex + 1) % q.capacity
    count := q.count - 1 }

/-- The value `buffer[out]` read by the consumer's critical section. -/
def takenItem (q : Queue) : Int :=
  q.buffer.getD q.readIndex 0

/-- Well-formedness of a queue state: positive capacity, a buffer of
exactly `capacity` slots, the occupancy bound `count ≤ capacity`, both
cursors inside `[0, capacity)`, and the circular-buffer relation
`writeIndex = (readIndex + count) % capacity` between the cursors. -/
def Queue.WF (q : Queue) : Prop :=
  0 < q.capacity ∧
  q.buffer.length = q.capacity ∧
  q.count ≤ q.capacity ∧
  q.writeIndex < q.capacity ∧
  q.readIndex < q.capacity ∧
  q.writeIndex = (q.readIndex + q.count) % q.capacity

instance (q : Queue) : Decidable q.WF := by
  unfold Queue.WF; infer_instance

/-- Abstraction function: the logical FIFO contents of the circular
buffer, i.e. the `count` items starting at `readIndex`, read modulo
`capacity`. -/
def Queue.contents (q : Queue) : List Int :=
  (List.range q.count).map (fun i => q.buffer.getD ((q.readIndex + i) % q.capacity) 0)

/-- The freshly initialized state of the C programs: `count = 0`,
`in = out = 0`, a `capacity`-slot buffer (the C globals are
zero-initialized), not closed. -/
def initQueue (capacity : Nat) : Queue :=
  { capacity := capacity
    buffer := List.replicate capacity 0
    count := 0
    writeIndex := 0
    readIndex := 0
    closed := false }

/-- One completed operation, recording the item handed over. -/
inductive Event
  | putEv (item : Int)
  | takeEv (item : Int)
deriving DecidableEq

/-- The items of the successful puts of a trace, in completion order. -/
def putsOf : List Event → List Int
  | [] => []
  | Event.putEv it :: evs => it :: putsOf evs
  | Event.takeEv _ :: evs => putsOf evs

/-- The items of the successful takes of a trace, in completion order. -/
def takesOf : List Event → List Int
  | [] => []
  | Event.putEv _ :: evs => takesOf evs
  | Event.takeEv it :: evs => it :: takesOf evs

/-- `Trace q evs q'` — starting from state `q`, the completed operations
`evs` can execute in this order (each guard holding at its turn, exactly
the exit conditions of the wait loops of the C code: a completed put
requires `count < capacity`, a completed take requires `0 < count`; both
critical sections run under the same mutex, so an execution is a sequence
of these atomic steps) and end in `q'`. -/
inductive Trace : Queue → List Event → Queue → Prop
  | nil (q : Queue) : Trace q [] q
  | put (q : Queue) (item : Int) (evs : List Event) (q' : Queue)
      (hguard : q.count < q.capacity)
      (htail : Trace (putStep q item) evs q') :
      Trace q (Event.putEv item :: evs) q'
  | take (q : Queue) (evs : List Event) (q' : Queue)
      (hguard : 0 < q.count)
      (htail : Trace (takeStep q) evs q') :
      Trace q (Event.takeEv (takenItem q) :: evs) q'

/-- A six-operation interleaving on a capacity-2 queue exercising
wrap-around: put 10, put 20, take, put 30, take, take. -/
def fifoEvs : List Event :=
  [Event.putEv 10, Event.putEv 20, Event.takeEv 10, Event.putEv 30,
   Event.takeEv 20, Event.takeEv 30]

/-- Final state of the `fifoEvs` interleaving. -/
def fifoFinal : Queue :=
  { capacity := 2, buffer := [30, 20], count := 0,
    writeIndex := 1, readIndex := 1, closed := false }

/-- A wait-and-recheck loop `while (p state) wait;`: the waiter observes a
state on entry and one after each wake (spurious or not) — modelled as the
list of observed states — and exits at the first observed state that
falsifies the predicate, keeps waiting otherwise. -/
def waitWhile {σ : Type} (p : σ → Bool) : List σ → Option σ
  | [] => none
  | s :: rest => if p s then waitWhile p rest else some s

/-- The producer's wait loop, line 38 of the condition-variable source:
`while (count == BUFFER_SIZE) pthread_cond_wait(&not_full, &mutex);`. -/
def producerWait (states : List Queue) : Option Queue :=
  waitWhile (fun q => q.count == q.capacity) states

/-- The consumer's wait loop, line 64 of the condition-variable source:
`while (count == 0) pthread_cond_wait(&not_empty, &mutex);`. -/
def consumerWait (states : List Queue) : Option Queue :=
  waitWhile (fun q => q.count == 0) states

/-- The correct waiter of `04_spurious_wakeup.c`, lines 45-49:
`while (!ready) pthread_cond_wait(&cond, &mutex);`. -/
def waiterCorrectWait (states : List Bool) : Option Bool :=
  waitWhile (fun ready => !ready) states

/-- State of `04_semaphores/03_producer_consumer.c`: `buffer`, cursors
`in` (here `inIdx`) and `out` (here `outIdx`), and the values of the
counting semaphores `empty` (empty slots, initialized to `BUFFER_SIZE`)
and `full` (filled slots, initialized to 0). The binary `mutex` semaphore
serializes the critical sections, so a completed operation is one atomic
step on this state. -/
structure SemState where
  capacity : Nat
  buffer : List Int
  inIdx : Nat
  outIdx : Nat
  empty : Nat
  full : Nat
deriving DecidableEq

/-- A completed producer iteration of the semaphore variant, lines 33-41:
`sem_wait(&empty)` (enabled only when `0 < empty`), then under `mutex`
`buffer[in] = item; in = (in + 1) % BUFFER_SIZE;`, then `sem_post(&full)`. -/
def producerSem (s : SemState) (item : Int) : SemState :=
  { s with
    buffer := s.buffer.set s.inIdx item
    inIdx := (s.inIdx + 1) % s.capacity
    empty := s.empty - 1
    full := s.full + 1 }

/-- The value `buffer[out]` read by a consumer iteration (line 56). -/
def consumerSemItem (s : SemState) : Int :=
  s.buffer.getD s.outIdx 0

/-- A completed consumer iteration of the semaphore variant, lines 53-61:
`sem_wait(&full)` (enabled only when `0 < full`), then under `mutex`
`item = buffer[out]; out = (out + 1) % BUFFER_SIZE;`, then
`sem_post(&empty)`. -/
def consumerSem (s : SemState) : SemState :=
  { s with
    outIdx := (s.outIdx + 1) % s.capacity
    empty := s.empty + 1
    full := s.full - 1 }

/-- Initial semaphore-variant state from `main`:
`sem_init(&empty, 0, BUFFER_SIZE); sem_init(&full, 0, 0);`. -/
def initSemState (capacity : Nat) : SemState :=
  { capacity := capacity
    buffer := List.replicate capacity 0
    inIdx := 0
    outIdx := 0
    empty := capacity
    full := 0 }

/-- Correspondence between a semaphore-variant state and a
condition-variable-variant state: identical buffer and cursors, the
`full` semaphore counts exactly the occupied slots (`count`), and the
semaphore accounting `empty + full = capacity` holds. -/
def SemMatch (s : SemState) (q : Queue) : Prop :=
  s.capacity = q.capacity ∧ s.buffer = q.buffer ∧ s.inIdx = q.writeIndex ∧
  s.outIdx = q.readIndex ∧ s.full = q.count ∧ s.empty + s.full = s.capacity

instance (s : SemState) (q : Queue) : Decidable (SemMatch s q) := by
  unfold SemMatch; infer_instance

/-- `NUM_ITEMS` of the semaphore variant, line 18 of
`04_semaphores/03_producer_consumer.c`. -/
def NUM_ITEMS_sem : Nat := 15

/-- The loop bound of each producer and each consumer thread of the
semaphore variant: `for (int i = 0; i < NUM_ITEMS / 2; i++)`, with C
integer division truncating. -/
def itersPerThread : Nat := NUM_ITEMS_sem / 2

/-- Total puts completed by the two producer threads of `main`. -/
def totalPutsSem : Nat := 2 * itersPerThread

/-- Total takes completed by the two consumer threads of `main`. -/
def totalTakesSem : Nat := 2 * itersPerThread

/-- Modelled from the spec: outcome of a `put` attempt (§4.2, §7) — the
source has no `QueueClosed` error path, no `close` operation and no
constructor function; §4.1-§4.4 and §7 of the specification define them,
and the definitions carrying this marker are modelled faithfully from the
spec's words. `success` carries the post state, `queueClosed` carries the
(unchanged) state the failure left behind, `blocked` means the caller
keeps waiting for a free slot. -/
inductive PutOutcome
  | success (q' : Queue)
  | queueClosed (q' : Queue)
  | blocked
deriving DecidableEq

/-- Modelled from the spec: `put` per §4.2 — the source has no `closed`
handling. If `closed` is observed, fail with `QueueClosed` without
blocking and without inserting the item; otherwise once `count < capacity`
perform the atomic insertion (`putStep`); otherwise wait. -/
def put_spec (q : Queue) (item : Int) : PutOutcome :=
  if q.closed then PutOutcome.queueClosed q
  else if q.count < q.capacity then PutOutcome.success (putStep q item)
  else PutOutcome.blocked

/-- Modelled from the spec: outcome of a `take` attempt (§4.3, §7) — the
source has no `QueueClosed` error path. -/
inductive TakeOutcome
  | success (item : Int) (q' : Queue)
  | queueClosed (q' : Queue)
  | blocked
deriving DecidableEq

/-- Modelled from the spec: `take` per §4.3 — the source has no `closed`
handling. While `count == 0` and not closed, wait; if `count == 0` and
closed, fail with `QueueClosed`; otherwise read `buffer[readIndex]` and
perform the atomic removal (`takeStep`). -/
def take_spec (q : Queue) : TakeOutcome :=
  if 0 < q.count then TakeOutcome.success (takenItem q) (takeStep q)
  else if q.closed then TakeOutcome.queueClosed q
  else TakeOutcome.blocked

/-- Modelled from the spec: `close` per §4.4 — the source has no shutdown
call. Marks `closed = true` and changes nothing else. -/
def close_spec (q : Queue) : Queue :=
  { q with closed := true }

/-- Modelled from the spec: result of construction (§4.1, §6) — the
source allocates its queue as global variables and has no `new`. -/
inductive NewResult
  | ok (q : Queue)
  | invalidCapacity
deriving DecidableEq

/-- Modelled from the spec: `new(capacity)` per §4.1 — fails with
`InvalidCapacity` if `capacity < 1`; otherwise allocates the buffer and
initializes `count = 0`, `writeIndex = readIndex = 0`, `closed = false`,
i.e. returns the initial state of the C globals (`initQueue`). -/
def new_spec (capacity : Nat) : NewResult :=
  if capacity < 1 then NewResult.invalidCapacity
  else NewResult.ok (initQueue capacity)

/-! ## Theorems -/

theorem initQueue_WF (capacity : Nat) (hc : 0 < capacity) : (initQueue capacity).WF := by
  refine ⟨hc, ?_, ?_, hc, hc, ?_⟩ <;> simp [initQueue]

theorem initQueue_contents (capacity : Nat) : (initQueue capacity).contents = [] := by
  simp [Queue.contents, initQueue]

example : (initQueue 5).WF := by decide

example : putStep (initQueue 3) 7 =
    { capacity := 3, buffer := [7, 0, 0], count := 1,
      writeIndex := 1, readIndex := 0, closed := false } := by decide

theorem getD_set_self (l : List Int) (i : Nat) (x : Int) (h : i < l.length) :
    (l.set i x).getD i 0 = x := by
  rw [List.getD_eq_getElem _ _ (by simpa using h)]
  exact List.getElem_set_self ..

theorem getD_set_ne (l : List Int) (i j : Nat) (x : Int) (hne : i ≠ j) :
    (l.set i x).getD j 0 = l.getD j 0 := by
  simp [List.getD_eq_getD_get?, List.getElem?_set_ne hne]

theorem mod_cancel_of_lt {cap r i j : Nat} (hi : i < cap) (hj : j < cap)
    (h : (r + i) % cap = (r + j) % cap) : i = j := by
  have h2 : i % cap = j % cap := Nat.ModEq.add_left_cancel' r h
  rwa [Nat.mod_eq_of_lt hi, Nat.mod_eq_of_lt hj] at h2

theorem putStep_WF (q : Queue) (item : Int) (hwf : q.WF) (h : q.count < q.capacity) :
    (putStep q item).WF := by
  obtain ⟨hcap, hlen, hcnt, hw, hr, hwr⟩ := hwf
  refine ⟨hcap, ?_, h, Nat.mod_lt _ hcap, hr, ?_⟩
  · simpa [putStep] using hlen
  · simp only [putStep]
    rw [hwr, Nat.mod_add_mod, Nat.add_assoc]

theorem takeStep_WF (q : Queue) (hwf : q.WF) (h : 0 < q.count) :
    (takeStep q).WF := by
  obtain ⟨hcap, hlen, hcnt, hw, hr, hwr⟩ := hwf
  refine ⟨hcap, hlen, by simp only [takeStep]; omega, hw, Nat.mod_lt _ hcap, ?_⟩
  simp only [takeStep]
  rw [Nat.mod_add_mod, hwr]
  congr 1
  omega

theorem putStep_contents (q : Queue) (item : Int) (hwf : q.WF) (h : q.count < q.capacity) :
    (putStep q item).contents = q.contents ++ [item] := by
  obtain ⟨hcap, hlen, hcnt, hw, hr, hwr⟩ := hwf
  unfold Queue.contents
  simp only [putStep, List.range_succ, List.map_append, List.map_cons, List.map_nil]
  congr 1
  · apply List.map_congr_left
    intro i hi
    rw [List.mem_range] at hi
    apply getD_set_ne
    intro hEq
    rw [hwr] at hEq
    have hEq2 : q.count = i := mod_cancel_of_lt h (by omega) hEq
    omega
  · rw [← hwr, getD_set_self]
    omega

theorem takeStep_contents (q : Queue) (hwf : q.WF) (h : 0 < q.count) :
    q.contents = takenItem q :: (takeStep q).contents := by
  obtain ⟨hcap, hlen, hcnt, hw, hr, hwr⟩ := hwf
  obtain ⟨m, hm⟩ : ∃ m, q.count = m + 1 := ⟨q.count - 1, by omega⟩
  unfold Queue.contents takenItem
  simp only [takeStep, hm, Nat.add_sub_cancel]
  rw [List.range_succ_eq_map]
  simp only [List.map_cons, List.map_map]
  congr 1
  · rw [Nat.add_zero, Nat.mod_eq_of_lt hr]
  · apply List.map_congr_left
    intro i hi
    simp only [Function.comp, Nat.succ_eq_add_one]
    rw [Nat.mod_add_mod]
    have hidx : q.readIndex + 1 + i = q.readIndex + (i + 1) := by omega
    rw [hidx]

/-- Conservation along a trace: the items initially queued followed by
everything put equals everything taken followed by what remains queued —
and well-formedness is preserved. -/
theorem trace_conservation (q : Queue) (evs : List Event) (q' : Queue)
    (h : Trace q evs q') (hwf : q.WF) :
    q.contents ++ putsOf evs = takesOf evs ++ q'.contents ∧ q'.WF := by
  induction h with
  | nil q => exact ⟨by simp [putsOf, takesOf], hwf⟩
  | put q item evs q' hguard htail ih =>
    obtain ⟨ih1, ih2⟩ := ih (putStep_WF q item hwf hguard)
    refine ⟨?_, ih2⟩
    rw [putsOf, takesOf, ← ih1, putStep_contents q item hwf hguard]
    simp
  | take q evs q' hguard htail ih =>
    obtain ⟨ih1, ih2⟩ := ih (takeStep_WF q hwf hguard)
    refine ⟨?_, ih2⟩
    rw [putsOf, takesOf, takeStep_contents q hwf hguard, List.cons_append, ih1,
      List.cons_append]

/-- Starting from the fresh queue the puts of any trace are exactly the
takes followed by the final contents. -/
theorem trace_from_init (capacity : Nat) (evs : List Event) (qf : Queue)
    (hcap : 0 < capacity) (h : Trace (initQueue capacity) evs qf) :
    putsOf evs = takesOf evs ++ qf.contents ∧ qf.WF := by
  have := trace_conservation _ evs qf h (initQueue_WF capacity hcap)
  rwa [initQueue_contents, List.nil_append] at this

/-- The capacity field is fixed: no completed operation ever changes it. -/
theorem trace_capacity (q : Queue) (evs : List Event) (q' : Queue) (h : Trace q evs q') :
    q'.capacity = q.capacity := by
  induction h with
  | nil q => rfl
  | put q item evs q' hguard htail ih => simpa [putStep] using ih
  | take q evs q' hguard htail ih => simpa [takeStep] using ih

/-- C1: FIFO delivery — for any single queue instance and any interleaving
of completed operations, the n-th successful take returns the item written
by the n-th successful put (ordering taken over the sequence of
completions). -/
theorem C1_fifo_delivery (capacity : Nat) (evs : List Event) (qf : Queue) (n : Nat)
    (hcap : 0 < capacity) (h : Trace (initQueue capacity) evs qf)
    (hn : n < (takesOf evs).length) :
    (takesOf evs).getD n 0 = (putsOf evs).getD n 0 := by
  obtain ⟨hpt, -⟩ := trace_from_init capacity evs qf hcap h
  rw [hpt, List.getD_append _ _ _ _ hn]

theorem C1_fifo_delivery_witness :
    1 < (takesOf fifoEvs).length ∧ (takesOf fifoEvs).getD 1 0 = (putsOf fifoEvs).getD 1 0 := by
  refine ⟨by decide, C1_fifo_delivery 2 fifoEvs fifoFinal 1 (by decide) ?_ (by decide)⟩
  refine Trace.put _ 10 _ _ (by decide) ?_
  refine Trace.put _ 20 _ _ (by decide) ?_
  refine Trace.take _ _ _ (by decide) ?_
  refine Trace.put _ 30 _ _ (by decide) ?_
  refine Trace.take _ _ _ (by decide) ?_
  refine Trace.take _ _ _ (by decide) ?_
  exact Trace.nil _

/-- C4: capacity-bound invariant — in every state reachable from the fresh
queue by completed put/take steps, `0 ≤ count ≤ capacity`, where the
capacity is the one fixed at construction. -/
theorem C4_capacity_bound (capacity : Nat) (evs : List Event) (qf : Queue)
    (hcap : 0 < capacity) (h : Trace (initQueue capacity) evs qf) :
    0 ≤ qf.count ∧ qf.count ≤ capacity := by
  obtain ⟨-, hwf⟩ := trace_from_init capacity evs qf hcap h
  have hc : qf.capacity = capacity := by
    simpa [initQueue] using trace_capacity _ _ _ h
  exact ⟨Nat.zero_le _, by rw [← hc]; exact hwf.2.2.1⟩

theorem C4_capacity_bound_witness :
    0 ≤ (putStep (initQueue 1) 5).count ∧ (putStep (initQueue 1) 5).count ≤ 1 := by
  refine C4_capacity_bound 1 [Event.putEv 5] (putStep (initQueue 1) 5) (by decide) ?_
  exact Trace.put _ _ _ _ (by decide) (Trace.nil _)

/-- C9: cursor-range invariant — in every reachable state `writeIndex` and
`readIndex` lie in `[0, capacity)`, hence every buffer access of put
(`buffer[writeIndex]`) and take (`buffer[readIndex]`) is within the bounds
of the capacity-slot buffer. -/
theorem C9_cursor_range (capacity : Nat) (evs : List Event) (qf : Queue)
    (hcap : 0 < capacity) (h : Trace (initQueue capacity) evs qf) :
    qf.writeIndex < qf.capacity ∧ qf.readIndex < qf.capacity ∧
    qf.writeIndex < qf.buffer.length ∧ qf.readIndex < qf.buffer.length := by
  obtain ⟨-, hwf⟩ := trace_from_init capacity evs qf hcap h
  obtain ⟨-, hlen, -, hw, hr, -⟩ := hwf
  exact ⟨hw, hr, by omega, by omega⟩

theorem C9_cursor_range_witness :
    (takeStep (putStep (initQueue 2) 8)).writeIndex < 2 ∧
    (takeStep (putStep (initQueue 2) 8)).readIndex < 2 := by
  have h := C9_cursor_range 2 [Event.putEv 8, Event.takeEv 8]
      (takeStep (putStep (initQueue 2) 8)) (by decide)
      (Trace.put _ _ _ _ (by decide) (Trace.take _ _ _ (by decide) (Trace.nil _)))
  have hc : (takeStep (putStep (initQueue 2) 8)).capacity = 2 := by decide
  exact ⟨by rw [← hc]; exact h.1, by rw [← hc]; exact h.2.1⟩

/-- C2: put postcondition — from a state with `count < capacity`, the
atomic critical section writes `item` into `buffer[writeIndex]`, advances
`writeIndex` to `(writeIndex+1) mod capacity`, increments `count` by one,
and changes nothing else (readIndex, capacity, closed flag, buffer length
and every other buffer slot are untouched). -/
theorem C2_put_postcondition (q : Queue) (item : Int) (hwf : q.WF) (h : q.count < q.capacity) :
    (putStep q item).buffer.getD q.writeIndex 0 = item ∧
    (putStep q item).writeIndex = (q.writeIndex + 1) % q.capacity ∧
    (putStep q item).count = q.count + 1 ∧
    (putStep q item).readIndex = q.readIndex ∧
    (putStep q item).capacity = q.capacity ∧
    (putStep q item).closed = q.closed ∧
    (putStep q item).buffer.length = q.buffer.length ∧
    ∀ j, j ≠ q.writeIndex → (putStep q item).buffer.getD j 0 = q.buffer.getD j 0 := by
  obtain ⟨hcap, hlen, hcnt, hw, hr, hwr⟩ := hwf
  refine ⟨?_, rfl, rfl, rfl, rfl, rfl, by simp [putStep], ?_⟩
  · exact getD_set_self _ _ _ (by omega)
  · intro j hj
    exact getD_set_ne _ _ _ _ (fun hEq => hj hEq.symm)

theorem C2_put_postcondition_witness :
    (putStep (initQueue 2) 9).buffer.getD 0 0 = 9 ∧ (putStep (initQueue 2) 9).count = 1 := by
  have h := C2_put_postcondition (initQueue 2) 9 (by decide) (by decide)
  exact ⟨h.1, h.2.2.1⟩

/-- C3: take postcondition — from a state with `count > 0`, the atomic
critical section returns the item at `buffer[readIndex]`, advances
`readIndex` to `(readIndex+1) mod capacity`, decrements `count` by exactly
one, and changes nothing else (writeIndex, capacity, closed flag and the
whole buffer are untouched). -/
theorem C3_take_postcondition (q : Queue) (hwf : q.WF) (h : 0 < q.count) :
    takenItem q = q.buffer.getD q.readIndex 0 ∧
    (takeStep q).readIndex = (q.readIndex + 1) % q.capacity ∧
    (takeStep q).count + 1 = q.count ∧
    (takeStep q).writeIndex = q.writeIndex ∧
    (takeStep q).capacity = q.capacity ∧
    (takeStep q).closed = q.closed ∧
    (takeStep q).buffer = q.buffer := by
  refine ⟨rfl, rfl, ?_, rfl, rfl, rfl, rfl⟩
  simp only [takeStep]
  omega

theorem C3_take_postcondition_witness :
    takenItem (putStep (initQueue 1) 4) = 4 ∧
    (takeStep (putStep (initQueue 1) 4)).count + 1 = 1 := by
  have h := C3_take_postcondition (putStep (initQueue 1) 4) (by decide) (by decide)
  exact ⟨by rw [h.1]; decide, h.2.2.1⟩

theorem waitWhile_exit {σ : Type} (p : σ → Bool) (l : List σ) (s : σ)
    (h : waitWhile p l = some s) : s ∈ l ∧ p s = false := by
  induction l with
  | nil => exact absurd h (by simp [waitWhile])
  | cons a rest ih =>
    rw [waitWhile] at h
    split at h
    · obtain ⟨hmem, hps⟩ := ih h
      exact ⟨List.mem_cons_of_mem _ hmem, hps⟩
    · rename_i hpa
      injection h with h2
      subst h2
      exact ⟨List.mem_cons_self _ _, by simpa using hpa⟩

/-- C5: recheck-loop soundness — whatever states the waiter observes at
its wakes (spurious or competing wakes included), if the producer's loop
exits it exits in a state with `count < capacity` (given the occupancy
bound on observed states), if the consumer's loop exits it exits in a
state with `count > 0`, and the correct waiter of the spurious-wakeup
demonstration only proceeds with `ready` true; none of them acts on a
wake signal alone. -/
theorem C5_recheck_loop_sound (states : List Queue) (qp qc : Queue)
    (hinv : ∀ s ∈ states, s.count ≤ s.capacity)
    (hp : producerWait states = some qp)
    (hc : consumerWait states = some qc) :
    qp.count < qp.capacity ∧ 0 < qc.count ∧
    (∀ (rs : List Bool) (r : Bool), waiterCorrectWait rs = some r → r = true) := by
  obtain ⟨hmemp, hfp⟩ := waitWhile_exit _ _ _ hp
  obtain ⟨hmemc, hfc⟩ := waitWhile_exit _ _ _ hc
  have h1 : qp.count ≠ qp.capacity := by simpa using hfp
  have h2 : qc.count ≠ 0 := by simpa using hfc
  have h3 := hinv qp hmemp
  refine ⟨by omega, by omega, ?_⟩
  intro rs r hr
  have h4 := (waitWhile_exit _ _ _ hr).2
  simpa using h4

theorem C5_recheck_loop_sound_witness :
    (initQueue 1).count < (initQueue 1).capacity ∧ 0 < (putStep (initQueue 1) 3).count ∧
    (∀ (rs : List Bool) (r : Bool), waiterCorrectWait rs = some r → r = true) := by
  refine C5_recheck_loop_sound [initQueue 1, putStep (initQueue 1) 3]
    (initQueue 1) (putStep (initQueue 1) 3) ?_ (by decide) (by decide)
  intro s hs
  fin_cases hs <;> decide

/-- C7: the lock-plus-two-condition-variables implementation and the
three-counting-semaphores implementation are semantically equivalent —
under the `SemMatch` correspondence (same buffer, cursors and occupancy)
the wait guards coincide, a completed put takes matching states to
matching states, and a completed take takes matching states to matching
states while delivering the identical item. -/
theorem C7_strategies_equivalent (s : SemState) (q : Queue) (item : Int)
    (hm : SemMatch s q) :
    ((0 < s.empty) ↔ q.count < q.capacity) ∧
    ((0 < s.full) ↔ 0 < q.count) ∧
    (0 < s.empty → SemMatch (producerSem s item) (putStep q item)) ∧
    (0 < s.full →
      consumerSemItem s = takenItem q ∧ SemMatch (consumerSem s) (takeStep q)) := by
  obtain ⟨h1, h2, h3, h4, h5, h6⟩ := hm
  refine ⟨by omega, by omega, ?_, ?_⟩
  · intro he
    simp only [SemMatch, producerSem, putStep]
    refine ⟨h1, by rw [h2, h3], by rw [h3, h1], h4, by omega, by omega⟩
  · intro hf
    constructor
    · simp only [consumerSemItem, takenItem]
      rw [h2, h4]
    · simp only [SemMatch, consumerSem, takeStep]
      refine ⟨h1, h2, h3, by rw [h4, h1], by omega, by omega⟩

theorem C7_strategies_equivalent_witness :
    SemMatch (producerSem (initSemState 2) 4) (putStep (initQueue 2) 4) := by
  have h := C7_strategies_equivalent (initSemState 2) (initQueue 2) 4 (by decide)
  exact h.2.2.1 (by decide)

/-- C10: in the semaphore variant each of the two producers and two
consumers performs exactly `NUM_ITEMS / 2 = 7` iterations, so exactly 14
items are put and exactly 14 are taken — one fewer than `NUM_ITEMS` — and
the number of puts equals the number of takes. -/
theorem C10_sem_workload :
    itersPerThread = 7 ∧ totalPutsSem = 14 ∧ totalTakesSem = 14 ∧
    totalPutsSem = NUM_ITEMS_sem - 1 ∧ totalPutsSem = totalTakesSem := by
  decide

/-- C6: `QueueClosed` error semantics — a `put` that observes `closed`
fails with `QueueClosed` without blocking and without changing the state;
a `take` fails with `QueueClosed` exactly when the queue is closed and
`count = 0`; and on a closed queue with items remaining, `take` still
succeeds, delivering the first item of the remaining contents and leaving
the closed queue holding the rest — so the remaining items drain in FIFO
order before `QueueClosed` is ever reported. -/
theorem C6_queue_closed_semantics (q : Queue) (item : Int) (hwf : q.WF) :
    (q.closed = true → put_spec q item = PutOutcome.queueClosed q) ∧
    (take_spec q = TakeOutcome.queueClosed q ↔ (q.closed = true ∧ q.count = 0)) ∧
    (q.closed = true → 0 < q.count →
      take_spec q = TakeOutcome.success (q.contents.getD 0 0) (takeStep q) ∧
      (takeStep q).closed = true ∧ (takeStep q).WF ∧
      (takeStep q).contents = q.contents.tail) := by
  refine ⟨?_, ?_, ?_⟩
  · intro hb
    simp [put_spec, hb]
  · rw [take_spec]
    split
    · rename_i hpos
      constructor
      · intro hEq
        exact absurd hEq (by simp)
      · rintro ⟨-, hzero⟩
        omega
    · rename_i hpos
      split
      · rename_i hb
        constructor
        · intro
          exact ⟨hb, by omega⟩
        · intro
          rfl
      · rename_i hb
        constructor
        · intro hEq
          exact absurd hEq (by simp)
        · rintro ⟨hb2, -⟩
          exact absurd hb2 hb
  · intro hb hpos
    have hcont := takeStep_contents q hwf hpos
    refine ⟨?_, by simp [takeStep, hb], takeStep_WF q hwf hpos, by rw [hcont, List.tail_cons]⟩
    rw [take_spec, if_pos hpos, hcont]
    rfl

theorem C6_queue_closed_semantics_witness :
    put_spec (close_spec (putStep (initQueue 1) 42)) 7 =
      PutOutcome.queueClosed (close_spec (putStep (initQueue 1) 42)) ∧
    take_spec (close_spec (putStep (initQueue 1) 42)) =
      TakeOutcome.success (((close_spec (putStep (initQueue 1) 42)).contents).getD 0 0)
        (takeStep (close_spec (putStep (initQueue 1) 42))) := by
  have h := C6_queue_closed_semantics (close_spec (putStep (initQueue 1) 42)) 7 (by decide)
  exact ⟨h.1 (by decide), (h.2.2 (by decide) (by decide)).1⟩

/-- C8: construction contract — `new(capacity)` fails with
`InvalidCapacity` when `capacity < 1`, and otherwise returns a queue with
`count = 0`, `writeIndex = readIndex = 0`, `closed = false` and a
`capacity`-slot buffer. -/
theorem C8_construction_contract (capacity : Nat) :
    (capacity < 1 → new_spec capacity = NewResult.invalidCapacity) ∧
    (1 ≤ capacity →
      new_spec capacity = NewResult.ok (initQueue capacity) ∧
      (initQueue capacity).count = 0 ∧ (initQueue capacity).writeIndex = 0 ∧
      (initQueue capacity).readIndex = 0 ∧ (initQueue capacity).closed = false ∧
      (initQueue capacity).buffer.length = capacity) := by
  constructor
  · intro h
    rw [new_spec, if_pos h]
  · intro h
    refine ⟨?_, rfl, rfl, rfl, rfl, by simp [initQueue]⟩
    rw [new_spec, if_neg (by omega)]

theorem C8_construction_contract_witness :
    new_spec 0 = NewResult.invalidCapacity ∧ new_spec 3 = NewResult.ok (initQueue 3) :=
  ⟨(C8_construction_contract 0).1 (by decide), ((C8_construction_contract 3).2 (by decide)).1⟩
